import Mathlib

/-!
Shallow embedding of the golink file-backed link store
(internal/storage/json_storage.go and internal/link/link.go).

Modelling choices:
* `time.Time` values are modelled as natural numbers; the JSON text layer of
  the standard library is modelled structurally: a well-formed document is a
  `JVal` tree, and file content is either zero-length (`FileData.empty`),
  text that is not a well-formed document (`FileData.malformed`), or a
  well-formed document (`FileData.doc`).
* The Go map `map[string]*link.Link` is modelled as an association list whose
  keys are unique; Go map insertion overwrites in place or appends a fresh
  key, map deletion removes the key.
* Marshalling of a map sorts its keys; struct fields are emitted in
  declaration order with `omitempty` on description and category.
  Unmarshalling into a struct starts from the zero value, fills fields by
  JSON tag, ignores unknown keys and fails on a type mismatch; duplicate
  object keys are processed in order, last one wins.
* Every store operation is a function from the store state to a pair of the
  Go return values and the post state, so that the state after a failed call
  is explicit.  File-system write failure is modelled by the `ioFail` flag
  passed to the operations that persist (`os.WriteFile` either succeeds or
  fails leaving the previous content).
-/

/-- internal/link/link.go: the Link struct, with Go field names.
JSON tags: alias, url, description (omitempty), category (omitempty),
created_at, updated_at. -/
structure Link where
  Alias : String
  URL : String
  Description : String
  Category : String
  CreatedAt : Nat
  UpdatedAt : Nat
deriving DecidableEq, Repr

/-- internal/link/link.go: NewLink stamps CreatedAt and UpdatedAt with the
current time, passed here explicitly as `now`. -/
def NewLink (a url description category : String) (now : Nat) : Link :=
  { Alias := a, URL := url, Description := description, Category := category,
    CreatedAt := now, UpdatedAt := now }

/-- A well-formed JSON document, restricted to the shapes this program
produces and consumes: strings (Go string fields), numbers (the timestamp
scalars) and objects. -/
inductive JVal where
  | str (s : String)
  | num (n : Nat)
  | obj (fields : List (String × JVal))

/-- The Go zero value of Link, the starting point of json.Unmarshal into a
freshly allocated struct. -/
def Link.zero : Link :=
  { Alias := "", URL := "", Description := "", Category := "",
    CreatedAt := 0, UpdatedAt := 0 }

/-- json.Marshal of a Link: fields in declaration order, description and
category omitted when empty. -/
def encodeLink (l : Link) : JVal :=
  JVal.obj
    ([("alias", JVal.str l.Alias), ("url", JVal.str l.URL)]
      ++ (if l.Description = "" then [] else [("description", JVal.str l.Description)])
      ++ (if l.Category = "" then [] else [("category", JVal.str l.Category)])
      ++ [("created_at", JVal.num l.CreatedAt), ("updated_at", JVal.num l.UpdatedAt)])

/-- One step of json.Unmarshal into a Link: set the struct field matching
the key, ignore unknown keys, fail on a type mismatch. -/
def decodeLinkField (l : Link) (k : String) (v : JVal) : Option Link :=
  if k = "alias" then
    match v with | JVal.str s => some { l with Alias := s } | _ => none
  else if k = "url" then
    match v with | JVal.str s => some { l with URL := s } | _ => none
  else if k = "description" then
    match v with | JVal.str s => some { l with Description := s } | _ => none
  else if k = "category" then
    match v with | JVal.str s => some { l with Category := s } | _ => none
  else if k = "created_at" then
    match v with | JVal.num n => some { l with CreatedAt := n } | _ => none
  else if k = "updated_at" then
    match v with | JVal.num n => some { l with UpdatedAt := n } | _ => none
  else some l

/-- Fold of `decodeLinkField` over the fields of a JSON object. -/
def decodeLinkFields : Link → List (String × JVal) → Option Link
  | l, [] => some l
  | l, (k, v) :: rest =>
    match decodeLinkField l k v with
    | some l' => decodeLinkFields l' rest
    | none => none

/-- json.Unmarshal of a Link value: expects an object. -/
def decodeLink : JVal → Option Link
  | JVal.obj fs => decodeLinkFields Link.zero fs
  | _ => none

/-- Go map insertion `m[k] = v` on the association-list model: overwrite in
place when the key is present, append otherwise. -/
def mapInsert (m : List (String × Link)) (k : String) (v : Link) :
    List (String × Link) :=
  match m with
  | [] => [(k, v)]
  | (k', v') :: rest =>
    if k' = k then (k, v) :: rest else (k', v') :: mapInsert rest k v

/-- json.MarshalIndent of map[string]*link.Link: an object whose keys are
the map keys in sorted order, each value the marshalled Link. -/
def encodeLinks (m : List (String × Link)) : JVal :=
  JVal.obj ((List.insertionSort (fun a b => a.1 ≤ b.1) m).map
    (fun p => (p.1, encodeLink p.2)))

/-- json.Unmarshal into map[string]*link.Link: decode each member in order,
inserting into the map (so a duplicate key is overwritten, last one wins);
fail if any member fails to decode. -/
def decodeLinksEntries :
    List (String × Link) → List (String × JVal) → Option (List (String × Link))
  | acc, [] => some acc
  | acc, (k, v) :: rest =>
    match decodeLink v with
    | some l => decodeLinksEntries (mapInsert acc k l) rest
    | none => none

/-- json.Unmarshal into map[string]*link.Link: expects an object document. -/
def decodeLinks (v : JVal) : Option (List (String × Link)) :=
  match v with
  | JVal.obj entries => decodeLinksEntries [] entries
  | _ => none

/-- Content of the backing file: zero-length, text that does not parse as a
document, or a well-formed document. -/
inductive FileData where
  | empty
  | malformed
  | doc (v : JVal)

/-- The error kinds the store returns (errors.New strings in Go, named by
the spec as AlreadyExists, NotFound, IOError and the parse error from
json.Unmarshal). -/
inductive StoreErr where
  | alreadyExists
  | notFound
  | parseError
  | ioError
deriving DecidableEq, Repr

/-- internal/storage/json_storage.go: JSONStorage holds the in-memory map
and (via filePath) the backing file; the mutex serialises access and is not
part of the sequential model. -/
structure JSONStorage where
  links : List (String × Link)
  file : FileData

/-- load: read the file; zero-length content replaces the map with an empty
one; otherwise unmarshal into a temporary map and swap it in only on
success, returning the parse error and keeping the previous map otherwise. -/
def JSONStorage.load (s : JSONStorage) : Except StoreErr Unit × JSONStorage :=
  match s.file with
  | FileData.empty => (Except.ok (), { s with links := [] })
  | FileData.malformed => (Except.error StoreErr.parseError, s)
  | FileData.doc v =>
    match decodeLinks v with
    | some tempLinks => (Except.ok (), { s with links := tempLinks })
    | none => (Except.error StoreErr.parseError, s)

/-- saveWithoutLock: marshal the whole map (which cannot fail on this typed
model) and write it to the file; a write failure surfaces as an I/O error
and leaves the previous content. -/
def JSONStorage.saveWithoutLock (s : JSONStorage) (ioFail : Bool) :
    Except StoreErr Unit × JSONStorage :=
  if ioFail then (Except.error StoreErr.ioError, s)
  else (Except.ok (), { s with file := FileData.doc (encodeLinks s.links) })

/-- Save: public flush, saveWithoutLock under the exclusive lock. -/
def JSONStorage.Save (s : JSONStorage) (ioFail : Bool) :
    Except StoreErr Unit × JSONStorage :=
  s.saveWithoutLock ioFail

/-- Create: fail with AlreadyExists when the alias key is present, otherwise
insert and persist, returning the persistence error without rolling the
insert back. -/
def JSONStorage.Create (s : JSONStorage) (ioFail : Bool) (l : Link) :
    Except StoreErr Unit × JSONStorage :=
  if (s.links.lookup l.Alias).isSome then
    (Except.error StoreErr.alreadyExists, s)
  else
    ({ s with links := mapInsert s.links l.Alias l }).saveWithoutLock ioFail

/-- Get: return the record for the alias, or NotFound. -/
def JSONStorage.Get (s : JSONStorage) (a : String) :
    Except StoreErr Link × JSONStorage :=
  match s.links.lookup a with
  | some l => (Except.ok l, s)
  | none => (Except.error StoreErr.notFound, s)

/-- List: build a fresh slice by appending every stored record. -/
def JSONStorage.List (s : JSONStorage) : List Link :=
  s.links.foldl (fun result p => result ++ [p.2]) []

/-- Update: fail with NotFound when the alias is absent, otherwise overwrite
the record wholesale and persist. -/
def JSONStorage.Update (s : JSONStorage) (ioFail : Bool) (l : Link) :
    Except StoreErr Unit × JSONStorage :=
  if (s.links.lookup l.Alias).isSome then
    ({ s with links := mapInsert s.links l.Alias l }).saveWithoutLock ioFail
  else
    (Except.error StoreErr.notFound, s)

/-- Delete: fail with NotFound when the alias is absent, otherwise remove
the key and persist. -/
def JSONStorage.Delete (s : JSONStorage) (ioFail : Bool) (a : String) :
    Except StoreErr Unit × JSONStorage :=
  if (s.links.lookup a).isSome then
    ({ s with links := s.links.filter (fun p => p.1 != a) }).saveWithoutLock ioFail
  else
    (Except.error StoreErr.notFound, s)

/-- The association list represents a Go map: its keys are pairwise
distinct. -/
def NodupKeys (m : List (String × Link)) : Prop :=
  (m.map Prod.fst).Nodup

/-- Every stored record sits under its own Alias field as key. -/
def AliasConsistent (m : List (String × Link)) : Prop :=
  ∀ p ∈ m, p.2.Alias = p.1

/-- Loading this state from its backing file succeeds and reproduces the
in-memory mapping (same aliases, same records). -/
def freshLoadMatches (s : JSONStorage) : Prop :=
  s.load.1 = Except.ok () ∧
    ∀ k, (s.load.2).links.lookup k = s.links.lookup k

/-! ### Helper lemmas about the association-list map model -/

theorem lookup_cons_eq (a k : String) (v : Link) (rest : List (String × Link)) :
    ((k, v) :: rest).lookup a = if a = k then some v else rest.lookup a := by
  by_cases h : a = k
  · subst h; simp [List.lookup]
  · have hb : (a == k) = false := beq_eq_false_iff_ne.mpr h
    simp [List.lookup, hb, h]

theorem nodupKeys_cons {k : String} {v : Link} {m : List (String × Link)} :
    NodupKeys ((k, v) :: m) ↔ k ∉ m.map Prod.fst ∧ NodupKeys m := by
  simp [NodupKeys]

theorem lookup_eq_none_of_not_mem (m : List (String × Link)) (k : String)
    (h : k ∉ m.map Prod.fst) : m.lookup k = none := by
  induction m with
  | nil => rfl
  | cons p rest ih =>
    obtain ⟨k', v'⟩ := p
    simp only [List.map_cons, List.mem_cons] at h
    push_neg at h
    rw [lookup_cons_eq, if_neg h.1]
    exact ih h.2

theorem mapInsert_eq_append (m : List (String × Link)) (k : String) (v : Link)
    (h : m.lookup k = none) : mapInsert m k v = m ++ [(k, v)] := by
  induction m with
  | nil => rfl
  | cons p rest ih =>
    obtain ⟨k', v'⟩ := p
    rw [lookup_cons_eq] at h
    by_cases hk : k = k'
    · rw [if_pos hk] at h
      simp at h
    · rw [if_neg hk] at h
      have hne : ¬k' = k := fun hh => hk hh.symm
      simp only [mapInsert, if_neg hne, ih h, List.cons_append]

theorem lookup_mapInsert (m : List (String × Link)) (k : String) (v : Link)
    (a : String) :
    (mapInsert m k v).lookup a = if a = k then some v else m.lookup a := by
  induction m with
  | nil =>
    show List.lookup a [(k, v)] = _
    rw [lookup_cons_eq]
  | cons p rest ih =>
    obtain ⟨k', v'⟩ := p
    by_cases hk : k' = k
    · have e1 : mapInsert ((k', v') :: rest) k v = (k, v) :: rest := by
        simp [mapInsert, hk]
      rw [e1, lookup_cons_eq, lookup_cons_eq]
      by_cases ha : a = k
      · simp [ha]
      · simp [ha, hk]
    · have e1 : mapInsert ((k', v') :: rest) k v = (k', v') :: mapInsert rest k v := by
        simp [mapInsert, hk]
      rw [e1, lookup_cons_eq, lookup_cons_eq, ih]
      by_cases ha : a = k'
      · have h2 : ¬a = k := fun hh => hk (ha.symm.trans hh)
        simp [ha, h2, hk]
      · simp [ha]

theorem mem_mapInsert (m : List (String × Link)) (k : String) (v : Link)
    (p : String × Link) (h : p ∈ mapInsert m k v) : p ∈ m ∨ p = (k, v) := by
  induction m with
  | nil => simp only [mapInsert, List.mem_singleton] at h; right; exact h
  | cons q rest ih =>
    obtain ⟨k', v'⟩ := q
    simp only [mapInsert] at h
    by_cases hk : k' = k
    · rw [if_pos hk] at h
      rcases List.mem_cons.mp h with h1 | h1
      · right; exact h1
      · left; exact List.mem_cons_of_mem _ h1
    · rw [if_neg hk] at h
      rcases List.mem_cons.mp h with h1 | h1
      · left; simp [h1]
      · rcases ih h1 with h2 | h2
        · left; exact List.mem_cons_of_mem _ h2
        · right; exact h2

theorem keys_mem_mapInsert (m : List (String × Link)) (k : String) (v : Link)
    (a : String) (h : a ∈ (mapInsert m k v).map Prod.fst) :
    a ∈ m.map Prod.fst ∨ a = k := by
  rcases List.mem_map.mp h with ⟨p, hp, hfst⟩
  rcases mem_mapInsert m k v p hp with h1 | h1
  · left; exact hfst ▸ List.mem_map_of_mem _ h1
  · right
    rw [h1] at hfst
    exact hfst.symm

theorem nodupKeys_mapInsert (m : List (String × Link)) (k : String) (v : Link)
    (h : NodupKeys m) : NodupKeys (mapInsert m k v) := by
  induction m with
  | nil => simp [mapInsert, NodupKeys]
  | cons q rest ih =>
    obtain ⟨k', v'⟩ := q
    rcases nodupKeys_cons.mp h with ⟨h1, h2⟩
    by_cases hk : k' = k
    · have e1 : mapInsert ((k', v') :: rest) k v = (k, v) :: rest := by
        simp [mapInsert, hk]
      rw [e1]
      exact nodupKeys_cons.mpr ⟨hk ▸ h1, h2⟩
    · have e1 : mapInsert ((k', v') :: rest) k v = (k', v') :: mapInsert rest k v := by
        simp [mapInsert, hk]
      rw [e1]
      refine nodupKeys_cons.mpr ⟨?_, ih h2⟩
      intro hmem
      rcases keys_mem_mapInsert rest k v k' hmem with hx | hx
      · exact h1 hx
      · exact hk hx

theorem nodupKeys_filter (m : List (String × Link)) (f : String × Link → Bool)
    (h : NodupKeys m) : NodupKeys (m.filter f) :=
  List.Nodup.sublist (List.Sublist.map Prod.fst (List.filter_sublist m)) h

theorem mem_of_lookup_eq_some {m : List (String × Link)} {k : String} {v : Link}
    (h : m.lookup k = some v) : (k, v) ∈ m := by
  induction m with
  | nil => simp [List.lookup] at h
  | cons p rest ih =>
    obtain ⟨k', v'⟩ := p
    rw [lookup_cons_eq] at h
    by_cases hk : k = k'
    · rw [if_pos hk] at h
      injection h with h
      rw [hk, h]
      exact List.mem_cons_self _ _
    · rw [if_neg hk] at h
      exact List.mem_cons_of_mem _ (ih h)

theorem lookup_perm {l1 l2 : List (String × Link)} (h : l1.Perm l2) :
    NodupKeys l1 → ∀ k, l1.lookup k = l2.lookup k := by
  induction h with
  | nil => intro _ k; rfl
  | cons x h ih =>
    intro hnd k
    obtain ⟨kx, vx⟩ := x
    rcases nodupKeys_cons.mp hnd with ⟨_, h2⟩
    rw [lookup_cons_eq, lookup_cons_eq]
    by_cases hk : k = kx
    · rw [if_pos hk, if_pos hk]
    · rw [if_neg hk, if_neg hk]
      exact ih h2 k
  | swap x y l =>
    intro hnd k
    obtain ⟨kx, vx⟩ := x
    obtain ⟨ky, vy⟩ := y
    rcases nodupKeys_cons.mp hnd with ⟨hy, _⟩
    have hxy : ¬ky = kx := by
      intro e; exact hy (by simp [e])
    rw [lookup_cons_eq, lookup_cons_eq, lookup_cons_eq, lookup_cons_eq]
    by_cases h1 : k = ky
    · have h2 : ¬k = kx := fun h2 => hxy (h1.symm.trans h2)
      rw [if_pos h1, if_neg h2, if_pos h1]
    · by_cases h2 : k = kx
      · rw [if_neg h1, if_pos h2, if_pos h2]
      · rw [if_neg h1, if_neg h2, if_neg h2, if_neg h1]
  | trans h1 _ ih1 ih2 =>
    intro hnd k
    rw [ih1 hnd k, ih2 ((h1.map Prod.fst).nodup hnd) k]

/-! ### Round trip of the JSON encoding -/

theorem decodeLink_encodeLink (l : Link) : decodeLink (encodeLink l) = some l := by
  obtain ⟨A, U, D, C, Cr, Up⟩ := l
  by_cases hD : D = "" <;> by_cases hC : C = "" <;>
    simp [encodeLink, decodeLink, decodeLinkFields, decodeLinkField, Link.zero,
      hD, hC]

theorem decodeLinksEntries_encode (es : List (String × Link)) :
    ∀ acc, decodeLinksEntries acc (es.map (fun p => (p.1, encodeLink p.2))) =
      some (es.foldl (fun a p => mapInsert a p.1 p.2) acc) := by
  induction es with
  | nil => intro acc; rfl
  | cons p rest ih =>
    intro acc
    obtain ⟨k, v⟩ := p
    simp only [List.map_cons, decodeLinksEntries, decodeLink_encodeLink,
      List.foldl_cons]
    exact ih (mapInsert acc k v)

theorem foldl_mapInsert_eq (es : List (String × Link)) :
    ∀ acc, NodupKeys (acc ++ es) →
      es.foldl (fun a p => mapInsert a p.1 p.2) acc = acc ++ es := by
  induction es with
  | nil => intro acc _; simp
  | cons p rest ih =>
    intro acc h
    obtain ⟨k, v⟩ := p
    have hk : k ∉ acc.map Prod.fst := by
      simp only [NodupKeys, List.map_append, List.map_cons,
        List.nodup_append] at h
      intro hmem
      exact h.2.2 hmem (List.mem_cons_self k _)
    have h1 : acc.lookup k = none := lookup_eq_none_of_not_mem _ _ hk
    rw [List.foldl_cons]
    have h2 : mapInsert acc k v = acc ++ [(k, v)] := mapInsert_eq_append _ _ _ h1
    simp only [h2]
    rw [ih (acc ++ [(k, v)]) (by simpa [NodupKeys, List.append_assoc] using h)]
    simp

theorem decodeLinks_encodeLinks (m : List (String × Link)) (h : NodupKeys m) :
    decodeLinks (encodeLinks m) =
      some (List.insertionSort (fun a b => a.1 ≤ b.1) m) := by
  have hperm := List.perm_insertionSort (fun a b => a.1 ≤ b.1) m
  have hnd : NodupKeys (List.insertionSort (fun a b => a.1 ≤ b.1) m) :=
    (hperm.symm.map Prod.fst).nodup h
  simp only [encodeLinks, decodeLinks, decodeLinksEntries_encode]
  rw [foldl_mapInsert_eq _ [] (by simpa using hnd)]
  simp

theorem sorted_lookup_eq (m : List (String × Link)) (h : NodupKeys m)
    (k : String) :
    (List.insertionSort (fun a b => a.1 ≤ b.1) m).lookup k = m.lookup k := by
  have hperm := List.perm_insertionSort (fun a b => a.1 ≤ b.1) m
  have hnd : NodupKeys (List.insertionSort (fun a b => a.1 ≤ b.1) m) :=
    (hperm.symm.map Prod.fst).nodup h
  exact lookup_perm hperm hnd k

theorem save_freshLoadMatches (s : JSONStorage) (h : NodupKeys s.links) :
    freshLoadMatches ((s.saveWithoutLock false).2) := by
  have e2 : ((s.saveWithoutLock false).2).load =
      (Except.ok (), JSONStorage.mk
        (List.insertionSort (fun a b => a.1 ≤ b.1) s.links)
        (FileData.doc (encodeLinks s.links))) := by
    show ({ s with file := FileData.doc (encodeLinks s.links) } : JSONStorage).load = _
    simp only [JSONStorage.load, decodeLinks_encodeLinks s.links h]
  constructor
  · rw [e2]
  · intro k
    rw [e2]
    exact sorted_lookup_eq s.links h k

theorem foldl_append_snd (m : List (String × Link)) :
    ∀ acc : List Link, m.foldl (fun result p => result ++ [p.2]) acc =
      acc ++ m.map Prod.snd := by
  induction m with
  | nil => intro acc; simp
  | cons p rest ih =>
    intro acc
    rw [List.foldl_cons, ih]
    simp

theorem saveWithoutLock_links (s : JSONStorage) (b : Bool) :
    ((s.saveWithoutLock b).2).links = s.links := by
  cases b <;> rfl

theorem aliasConsistent_mapInsert (m : List (String × Link)) (l : Link)
    (h : AliasConsistent m) : AliasConsistent (mapInsert m l.Alias l) := by
  intro p hp
  rcases mem_mapInsert _ _ _ _ hp with h1 | h1
  · exact h p h1
  · rw [h1]

theorem aliasConsistent_filter (m : List (String × Link))
    (f : String × Link → Bool) (h : AliasConsistent m) :
    AliasConsistent (m.filter f) := by
  intro p hp
  exact h p (List.mem_of_mem_filter hp)

theorem load_eq_doc (ls : List (String × Link)) (v : JVal) :
    (JSONStorage.mk ls (FileData.doc v)).load =
      (match decodeLinks v with
       | some t => (Except.ok (), JSONStorage.mk t (FileData.doc v))
       | none => (Except.error StoreErr.parseError,
           JSONStorage.mk ls (FileData.doc v))) := rfl

instance (m : List (String × Link)) : Decidable (NodupKeys m) :=
  List.nodupDecidable _

instance (m : List (String × Link)) : Decidable (AliasConsistent m) :=
  List.decidableBAll _ m

/-- Concrete records and states instantiating the theorems below. -/
def wLink : Link :=
  { Alias := "gh", URL := "https://github.com/x", Description := "example",
    Category := "", CreatedAt := 3, UpdatedAt := 3 }

def wLink2 : Link :=
  { Alias := "docs", URL := "https://docs.example.com", Description := "",
    Category := "work", CreatedAt := 4, UpdatedAt := 9 }

def wStore : JSONStorage :=
  { links := [("gh", wLink), ("docs", wLink2)], file := FileData.empty }

def wBad : JSONStorage :=
  { links := [("gh", wLink)], file := FileData.malformed }

/-- Claim C1: serialising any valid mapping with saveWithoutLock and parsing
the produced document with load yields a mapping equal to the original:
load succeeds and agrees with the original on every alias (hence the same
alias set and the same field values, including for the empty mapping). -/
theorem round_trip_save_load (s : JSONStorage) (h : NodupKeys s.links) :
    ((s.saveWithoutLock false).1 = Except.ok ()) ∧
    (((s.saveWithoutLock false).2).load.1 = Except.ok ()) ∧
    ∀ k, ((((s.saveWithoutLock false).2).load.2).links.lookup k =
      s.links.lookup k) := by
  obtain ⟨h1, h2⟩ := save_freshLoadMatches s h
  exact ⟨rfl, h1, h2⟩

theorem round_trip_save_load_witness :
    NodupKeys wStore.links ∧
    (((wStore.saveWithoutLock false).1 = Except.ok ()) ∧
     (((wStore.saveWithoutLock false).2).load.1 = Except.ok ()) ∧
     ∀ k, ((((wStore.saveWithoutLock false).2).load.2).links.lookup k =
       wStore.links.lookup k)) :=
  ⟨by decide, round_trip_save_load wStore (by decide)⟩

/-- Claim C2: on any store state whose file content is non-empty and fails
to parse (not a well-formed document, or a document the unmarshaller
rejects), load returns the parse error and the in-memory mapping afterwards
equals the mapping before the call. -/
theorem load_parse_failure_preserves_links (s : JSONStorage)
    (h : s.file = FileData.malformed ∨
      ∃ v, s.file = FileData.doc v ∧ decodeLinks v = none) :
    s.load.1 = Except.error StoreErr.parseError ∧ s.load.2.links = s.links := by
  obtain ⟨ls, f⟩ := s
  rcases h with h | ⟨v, hv, hd⟩
  · have h' : f = FileData.malformed := h
    subst h'
    exact ⟨rfl, rfl⟩
  · have hv' : f = FileData.doc v := hv
    subst hv'
    rw [load_eq_doc, hd]
    exact ⟨rfl, rfl⟩

theorem load_parse_failure_witness :
    (wBad.file = FileData.malformed ∨
      ∃ v, wBad.file = FileData.doc v ∧ decodeLinks v = none) ∧
    (wBad.load.1 = Except.error StoreErr.parseError ∧
      wBad.load.2.links = wBad.links) :=
  ⟨Or.inl rfl, load_parse_failure_preserves_links wBad (Or.inl rfl)⟩

/-- Claim C3: on any store state whose file content is zero-length, load
succeeds and the in-memory mapping afterwards is empty, whatever it held
before. -/
theorem load_empty_file_yields_empty (s : JSONStorage)
    (h : s.file = FileData.empty) :
    s.load.1 = Except.ok () ∧ s.load.2.links = [] := by
  have e : s.load = (Except.ok (), { s with links := [] }) := by
    unfold JSONStorage.load
    rw [h]
  rw [e]
  exact ⟨rfl, rfl⟩

theorem load_empty_file_witness :
    wStore.file = FileData.empty ∧
    (wStore.load.1 = Except.ok () ∧ wStore.load.2.links = []) :=
  ⟨rfl, load_empty_file_yields_empty wStore rfl⟩

/-- Claim C4: Create on a link whose alias is already a key fails with
AlreadyExists and returns the store state completely unchanged: same
in-memory mapping and same backing-file content (no write happens), for any
outcome of the file system. -/
theorem create_already_exists (s : JSONStorage) (l : Link) (ioFail : Bool)
    (h : (s.links.lookup l.Alias).isSome) :
    s.Create ioFail l = (Except.error StoreErr.alreadyExists, s) := by
  unfold JSONStorage.Create
  rw [if_pos h]

theorem create_already_exists_witness :
    ((wStore.links.lookup wLink.Alias).isSome = true) ∧
    wStore.Create false wLink = (Except.error StoreErr.alreadyExists, wStore) :=
  ⟨by decide, create_already_exists wStore wLink false (by decide)⟩

/-- Claim C5: on an alias absent from the mapping, Get fails with NotFound,
Update of any link carrying that alias fails with NotFound, and Delete
fails with NotFound; each returns the store state completely unchanged
(same mapping, same file content, so no write happens). -/
theorem absent_alias_not_found (s : JSONStorage) (a : String) (ioFail : Bool)
    (h : s.links.lookup a = none) :
    s.Get a = (Except.error StoreErr.notFound, s) ∧
    (∀ l : Link, l.Alias = a →
      s.Update ioFail l = (Except.error StoreErr.notFound, s)) ∧
    s.Delete ioFail a = (Except.error StoreErr.notFound, s) := by
  refine ⟨?_, ?_, ?_⟩
  · unfold JSONStorage.Get
    rw [h]
  · intro l hl
    unfold JSONStorage.Update
    rw [hl, h]
    simp
  · unfold JSONStorage.Delete
    rw [h]
    simp

theorem absent_alias_not_found_witness :
    (wStore.links.lookup "zz" = none) ∧
    (wStore.Get "zz" = (Except.error StoreErr.notFound, wStore) ∧
     (∀ l : Link, l.Alias = "zz" →
       wStore.Update false l = (Except.error StoreErr.notFound, wStore)) ∧
     wStore.Delete false "zz" = (Except.error StoreErr.notFound, wStore)) :=
  ⟨by decide, absent_alias_not_found wStore "zz" false (by decide)⟩

/-- Claim C6: whenever Create, Update or Delete succeeds (with the file
system healthy), the document it wrote to the backing file parses back to
exactly the post-mutation in-memory mapping: a fresh load of the written
file succeeds and agrees with the new mapping on every alias. -/
theorem mutation_persists (s : JSONStorage) (h : NodupKeys s.links) :
    (∀ l : Link, (s.Create false l).1 = Except.ok () →
      freshLoadMatches (s.Create false l).2) ∧
    (∀ l : Link, (s.Update false l).1 = Except.ok () →
      freshLoadMatches (s.Update false l).2) ∧
    (∀ a : String, (s.Delete false a).1 = Except.ok () →
      freshLoadMatches (s.Delete false a).2) := by
  refine ⟨?_, ?_, ?_⟩
  · intro l hok
    by_cases hc : (s.links.lookup l.Alias).isSome
    · unfold JSONStorage.Create at hok
      rw [if_pos hc] at hok
      simp at hok
    · have e : s.Create false l =
          ({ s with links := mapInsert s.links l.Alias l } :
            JSONStorage).saveWithoutLock false := by
        unfold JSONStorage.Create
        rw [if_neg hc]
      rw [e]
      exact save_freshLoadMatches _ (nodupKeys_mapInsert _ _ _ h)
  · intro l hok
    by_cases hc : (s.links.lookup l.Alias).isSome
    · have e : s.Update false l =
          ({ s with links := mapInsert s.links l.Alias l } :
            JSONStorage).saveWithoutLock false := by
        unfold JSONStorage.Update
        rw [if_pos hc]
      rw [e]
      exact save_freshLoadMatches _ (nodupKeys_mapInsert _ _ _ h)
    · unfold JSONStorage.Update at hok
      rw [if_neg hc] at hok
      simp at hok
  · intro a hok
    by_cases hc : (s.links.lookup a).isSome
    · have e : s.Delete false a =
          ({ s with links := s.links.filter (fun p => p.1 != a) } :
            JSONStorage).saveWithoutLock false := by
        unfold JSONStorage.Delete
        rw [if_pos hc]
      rw [e]
      exact save_freshLoadMatches _ (nodupKeys_filter _ _ h)
    · unfold JSONStorage.Delete at hok
      rw [if_neg hc] at hok
      simp at hok

theorem mutation_persists_witness :
    NodupKeys wStore.links ∧
    ((∀ l : Link, (wStore.Create false l).1 = Except.ok () →
       freshLoadMatches (wStore.Create false l).2) ∧
     (∀ l : Link, (wStore.Update false l).1 = Except.ok () →
       freshLoadMatches (wStore.Update false l).2) ∧
     (∀ a : String, (wStore.Delete false a).1 = Except.ok () →
       freshLoadMatches (wStore.Delete false a).2)) :=
  ⟨by decide, mutation_persists wStore (by decide)⟩

/-- Claim C7: when the alias is fresh but persisting fails, Create returns
the persistence (I/O) error, yet the inserted link is still present in the
in-memory mapping afterwards (no rollback), while the file keeps its
previous content. -/
theorem create_no_rollback_on_persist_failure (s : JSONStorage) (l : Link)
    (h : s.links.lookup l.Alias = none) :
    (s.Create true l).1 = Except.error StoreErr.ioError ∧
    ((s.Create true l).2).links.lookup l.Alias = some l ∧
    ((s.Create true l).2).file = s.file := by
  have e : s.Create true l =
      (Except.error StoreErr.ioError,
        { s with links := mapInsert s.links l.Alias l }) := by
    unfold JSONStorage.Create JSONStorage.saveWithoutLock
    rw [h]
    simp
  rw [e]
  refine ⟨rfl, ?_, rfl⟩
  show (mapInsert s.links l.Alias l).lookup l.Alias = some l
  rw [lookup_mapInsert]
  simp

theorem create_no_rollback_witness :
    (wStore.links.lookup (NewLink "new" "https://example.com" "" "" 7).Alias
      = none) ∧
    ((wStore.Create true (NewLink "new" "https://example.com" "" "" 7)).1 =
        Except.error StoreErr.ioError ∧
      ((wStore.Create true (NewLink "new" "https://example.com" "" "" 7)).2).links.lookup
          (NewLink "new" "https://example.com" "" "" 7).Alias =
        some (NewLink "new" "https://example.com" "" "" 7) ∧
      ((wStore.Create true (NewLink "new" "https://example.com" "" "" 7)).2).file =
        wStore.file) :=
  ⟨by decide, create_no_rollback_on_persist_failure wStore _ (by decide)⟩

/-- Claim C8: a successful Update(l) is a wholesale overwrite: Update
returns success and afterwards the mapping at l.Alias is exactly l, every
field (UpdatedAt included) being whatever the caller supplied; the
timestamps are stamped only by NewLink, which sets both CreatedAt and
UpdatedAt to the construction time, and the Update path touches neither. -/
theorem update_overwrites_wholesale (s : JSONStorage) (l : Link)
    (h : (s.links.lookup l.Alias).isSome) :
    (s.Update false l).1 = Except.ok () ∧
    ((s.Update false l).2).links.lookup l.Alias = some l ∧
    (∀ a u d c now, (NewLink a u d c now).CreatedAt = now ∧
      (NewLink a u d c now).UpdatedAt = now) := by
  have e : s.Update false l =
      ({ s with links := mapInsert s.links l.Alias l } :
        JSONStorage).saveWithoutLock false := by
    unfold JSONStorage.Update
    rw [if_pos h]
  rw [e]
  refine ⟨rfl, ?_, ?_⟩
  · show (mapInsert s.links l.Alias l).lookup l.Alias = some l
    rw [lookup_mapInsert]
    simp
  · intro a u d c now
    exact ⟨rfl, rfl⟩

theorem update_overwrites_wholesale_witness :
    ((wStore.links.lookup (Link.mk "gh" "https://new.example.com" "" "" 3 50).Alias).isSome
      = true) ∧
    ((wStore.Update false (Link.mk "gh" "https://new.example.com" "" "" 3 50)).1 =
        Except.ok () ∧
      ((wStore.Update false (Link.mk "gh" "https://new.example.com" "" "" 3 50)).2).links.lookup
          (Link.mk "gh" "https://new.example.com" "" "" 3 50).Alias =
        some (Link.mk "gh" "https://new.example.com" "" "" 3 50) ∧
      (∀ a u d c now, (NewLink a u d c now).CreatedAt = now ∧
        (NewLink a u d c now).UpdatedAt = now)) :=
  ⟨by decide, update_overwrites_wholesale wStore _ (by decide)⟩

/-- Claim C9: the implicit invariant that every key of the mapping maps to
a record whose Alias field equals that key is preserved by Create, Update
and Delete, whether they succeed or fail and whatever the file system does:
Create and Update only ever insert a record under its own Alias field, and
Delete only removes entries. -/
theorem alias_consistency_preserved (s : JSONStorage) (ioFail : Bool)
    (l : Link) (a : String) (h : AliasConsistent s.links) :
    AliasConsistent ((s.Create ioFail l).2).links ∧
    AliasConsistent ((s.Update ioFail l).2).links ∧
    AliasConsistent ((s.Delete ioFail a).2).links := by
  refine ⟨?_, ?_, ?_⟩
  · unfold JSONStorage.Create
    by_cases hc : (s.links.lookup l.Alias).isSome
    · rw [if_pos hc]
      exact h
    · rw [if_neg hc, saveWithoutLock_links]
      exact aliasConsistent_mapInsert _ _ h
  · unfold JSONStorage.Update
    by_cases hc : (s.links.lookup l.Alias).isSome
    · rw [if_pos hc, saveWithoutLock_links]
      exact aliasConsistent_mapInsert _ _ h
    · rw [if_neg hc]
      exact h
  · unfold JSONStorage.Delete
    by_cases hc : (s.links.lookup a).isSome
    · rw [if_pos hc, saveWithoutLock_links]
      exact aliasConsistent_filter _ _ h
    · rw [if_neg hc]
      exact h

theorem alias_consistency_preserved_witness :
    AliasConsistent wStore.links ∧
    (AliasConsistent ((wStore.Create false wLink).2).links ∧
     AliasConsistent ((wStore.Update false wLink).2).links ∧
     AliasConsistent ((wStore.Delete false "gh").2).links) :=
  ⟨by decide, alias_consistency_preserved wStore false wLink "gh" (by decide)⟩

/-- Claim C10: the readers are pure: Get returns the store state unchanged
whether it succeeds or fails (same mapping and same file content, so it
never writes), and List builds a fresh sequence equal to the stored records
in order, with exactly one entry per alias: its length is the number of
aliases in the mapping. -/
theorem readers_pure (s : JSONStorage) (a : String) :
    (s.Get a).2 = s ∧
    s.List = s.links.map Prod.snd ∧
    s.List.length = s.links.length := by
  have hl : s.List = s.links.map Prod.snd := by
    have e := foldl_append_snd s.links []
    simpa [JSONStorage.List] using e
  refine ⟨?_, hl, ?_⟩
  · unfold JSONStorage.Get
    cases hc : s.links.lookup a <;> rfl
  · rw [hl, List.length_map]
